import Mathlib

/-!
Verification of the cognitive-orchestration-stack workflow engine.

This file gives a shallow embedding of the parts of the repository that the
verified properties talk about:

* `src/utils/schema_validator.py` — the schema-validated decoder
  (`SafeJSONParser.safe_parse_json` / `validate_planner_response`), including a
  model of Python `json.loads` / `json.dumps` on the JSON sublanguage relevant
  to planner documents (objects, arrays, strings, integer numbers and the
  three literals; fractional numbers and `\u` escapes are outside the
  sublanguage and are rejected by the model where Python would accept them —
  no verified property depends on such inputs being accepted), and a model of
  `jsonschema.validate` specialized to `PLANNER_RESPONSE_SCHEMA`.
* `src/utils/retry.py` — the tenacity-backed `retry` wrapper
  (`stop_after_attempt(3)`, default `reraise=False`, default retry-on-any-
  `Exception` predicate).
* `src/orchestration/nodes.py` — `planner_node`, `tool_executor_node`,
  `tool_executor_node_async`, `validation_critique_node`.
* `src/orchestration/graph.py` — `_edge_selector`.

Python exceptions are modelled with `Except`/`Option`; the behaviour of the
four registered tools (which call external ChromaDB/Neo4j/Ollama services) is
abstracted by an environment `env : String → Except String String` giving, for
each registered tool name, either the string it returns or the message of the
exception it raises on the state at hand.  The UI progress callback is
modelled by collecting the event strings that would be passed to it.
-/

namespace CogStack

/-- Characters that are awkward to write as literals, by code point. -/
def quoteChar : Char := Char.ofNat 34

def backslashChar : Char := Char.ofNat 92

def lbraceChar : Char := Char.ofNat 123

def rbraceChar : Char := Char.ofNat 125

def backtickChar : Char := Char.ofNat 96

/-- JSON values, as produced by Python `json.loads`.  Numbers are restricted
to integers (see the file header). -/
inductive Json where
  | str (s : String)
  | num (n : Int)
  | bool (b : Bool)
  | null
  | arr (xs : List Json)
  | obj (kvs : List (String × Json))
deriving Repr, BEq

/-- JSON whitespace accepted by Python `json.loads`. -/
def isJsonWs (c : Char) : Bool :=
  c = ' ' || c = '\t' || c = '\n' || c = '\r'

/-- Discard leading JSON whitespace. -/
def skipWs : List Char → List Char
  | [] => []
  | c :: cs => if isJsonWs c then skipWs cs else c :: cs

/-- The single-character JSON escapes (the `\u` form is outside the modelled
sublanguage). -/
def escChar (e : Char) : Option Char :=
  if e = quoteChar then some quoteChar
  else if e = backslashChar then some backslashChar
  else if e = '/' then some '/'
  else if e = 'n' then some '\n'
  else if e = 't' then some '\t'
  else if e = 'r' then some '\r'
  else if e = 'b' then some (Char.ofNat 8)
  else if e = 'f' then some (Char.ofNat 12)
  else none

/-- Parse the body of a JSON string after the opening quote: returns the
decoded characters and the input remaining after the closing quote. -/
def parseStringBody : List Char → Option (List Char × List Char)
  | [] => none
  | [c] => if c = quoteChar then some ([], []) else none
  | c :: e :: cs2 =>
    if c = quoteChar then some ([], e :: cs2)
    else if c = backslashChar then
      match escChar e with
      | none => none
      | some ec =>
        match parseStringBody cs2 with
        | none => none
        | some (body, rest) => some (ec :: body, rest)
    else
      match parseStringBody (e :: cs2) with
      | none => none
      | some (body, rest) => some (c :: body, rest)

/-- Split off a maximal run of decimal digits. -/
def takeDigits : List Char → List Char × List Char
  | [] => ([], [])
  | c :: cs =>
    if c.isDigit then
      let (ds, rest) := takeDigits cs
      (c :: ds, rest)
    else ([], c :: cs)

/-- Numeric value of a digit run. -/
def digitsToNat (ds : List Char) : Nat :=
  ds.foldl (fun acc c => acc * 10 + (c.toNat - '0'.toNat)) 0

/-- Parse a JSON integer (optional minus sign followed by digits). -/
def parseNumber : List Char → Option (Json × List Char)
  | '-' :: rest =>
    match takeDigits rest with
    | ([], _) => none
    | (ds, r) => some (Json.num (-(digitsToNat ds : Int)), r)
  | input =>
    match takeDigits input with
    | ([], _) => none
    | (ds, r) => some (Json.num (digitsToNat ds), r)

/-- Insert a parsed object member on the front of the members parsed after
it, with Python `dict` semantics for duplicate keys: the first occurrence
fixes the position, a later occurrence fixes the value. -/
def consKey (k : String) (v : Json) (kvs : List (String × Json)) :
    List (String × Json) :=
  match kvs.lookup k with
  | some v2 => (k, v2) :: kvs.filter (fun kv => kv.1 != k)
  | none => (k, v) :: kvs

mutual

/-- Recursive-descent model of Python `json.loads` on the modelled JSON
sublanguage.  `fuel` bounds the recursion; any fuel exceeding the input
length is enough, since every recursive call consumes input. -/
def parseVal : Nat → List Char → Option (Json × List Char)
  | 0, _ => none
  | fuel + 1, input =>
    match skipWs input with
    | [] => none
    | c :: cs =>
      if c = quoteChar then
        match parseStringBody cs with
        | none => none
        | some (body, rest) => some (Json.str (String.mk body), rest)
      else if c = '[' then
        match parseElems fuel cs with
        | none => none
        | some (xs, rest) => some (Json.arr xs, rest)
      else if c = lbraceChar then
        match parseMembers fuel cs with
        | none => none
        | some (kvs, rest) => some (Json.obj kvs, rest)
      else if c = 't' then
        match cs with
        | 'r' :: 'u' :: 'e' :: rest => some (Json.bool true, rest)
        | _ => none
      else if c = 'f' then
        match cs with
        | 'a' :: 'l' :: 's' :: 'e' :: rest => some (Json.bool false, rest)
        | _ => none
      else if c = 'n' then
        match cs with
        | 'u' :: 'l' :: 'l' :: rest => some (Json.null, rest)
        | _ => none
      else if c = '-' || c.isDigit then parseNumber (c :: cs)
      else none

/-- Elements of a JSON array, after the opening bracket. -/
def parseElems : Nat → List Char → Option (List Json × List Char)
  | 0, _ => none
  | fuel + 1, input =>
    match skipWs input with
    | [] => none
    | c :: cs =>
      if c = ']' then some ([], cs)
      else
        match parseVal fuel (c :: cs) with
        | none => none
        | some (j, rest) =>
          match skipWs rest with
          | [] => none
          | c2 :: r2 =>
            if c2 = ',' then
              match parseElems fuel r2 with
              | none => none
              | some (xs, r3) => some (j :: xs, r3)
            else if c2 = ']' then some ([j], r2)
            else none

/-- Members of a JSON object, after the opening brace. -/
def parseMembers : Nat → List Char →
    Option (List (String × Json) × List Char)
  | 0, _ => none
  | fuel + 1, input =>
    match skipWs input with
    | [] => none
    | c :: cs =>
      if c = rbraceChar then some ([], cs)
      else if c = quoteChar then
        match parseStringBody cs with
        | none => none
        | some (k, rest) =>
          match skipWs rest with
          | [] => none
          | c1 :: r2 =>
            if c1 = ':' then
              match parseVal fuel r2 with
              | none => none
              | some (v, r3) =>
                match skipWs r3 with
                | [] => none
                | c2 :: r4 =>
                  if c2 = ',' then
                    match parseMembers fuel r4 with
                    | none => none
                    | some (kvs, r5) => some (consKey (String.mk k) v kvs, r5)
                  else if c2 = rbraceChar then some ([(String.mk k, v)], r4)
                  else none
            else none
      else none

end

/-- Model of Python `json.loads`: parse one value and require only
whitespace after it (the repository test suite checks that trailing text is
rejected). -/
def jsonLoads (s : String) : Option Json :=
  match parseVal (s.length + 1) s.data with
  | none => none
  | some (j, rest) => if (skipWs rest).isEmpty then some j else none

/-- `json.dumps` of a string that needs no escaping (every tool identifier
is of this form). -/
def dumpsStr (s : String) : String :=
  String.mk (quoteChar :: s.data ++ [quoteChar])

/-- `json.dumps` of a list of such strings with the default `", "`
separator. -/
def dumpsItems : List String → String
  | [] => ""
  | [x] => dumpsStr x
  | x :: y :: tl => dumpsStr x ++ ", " ++ dumpsItems (y :: tl)

/-- `json.dumps` applied to the Python dict `\x7b"plan": P\x7d`: the JSON
serialization of a planner document. -/
def serializePlannerDoc (P : List String) : String :=
  String.mk (lbraceChar :: (dumpsStr "plan").data) ++ ": [" ++ dumpsItems P
    ++ String.mk (']' :: [rbraceChar])

/-- The closed tool enumeration of `PLANNER_RESPONSE_SCHEMA` (also the keys
of `TOOL_MAP` and the `valid_tools` set of `validate_planner_response`). -/
def VALID_TOOLS : List String :=
  ["vector_search", "graph_search", "vector_search_async",
   "graph_search_async"]

/-- The `jsonschema` message for an array item outside the `enum`. -/
def enumErrorMsg (item : String) : String :=
  "\x27" ++ item ++ "\x27 is not one of [\x27vector_search\x27, " ++
    "\x27graph_search\x27, \x27vector_search_async\x27, " ++
    "\x27graph_search_async\x27]"

/-- Validation of one item of the `plan` array against its subschema
(`type: string`, then the `enum`).  Messages of branches other than the
enum violation abbreviate the `jsonschema` wording; no verified property
depends on them. -/
def itemError : Json → Option String
  | .str s =>
    if VALID_TOOLS.contains s then none else some (enumErrorMsg s)
  | _ => some "is not of type \x27string\x27"

/-- First error among a list of per-item results. -/
def firstSomeMsg : List (Option String) → Option String
  | [] => none
  | some m :: _ => some m
  | none :: rest => firstSomeMsg rest

/-- Validation of the value of `"plan"` against its subschema.
`jsonschema.validate` raises the error selected by
`jsonschema.exceptions.best_match`, whose relevance key leads with the
negated path length under `max`: it prefers the error with the shallower
path.  A `minItems`/`maxItems` violation (at the path of the array itself)
is therefore reported in preference to any per-item error, and among the
per-item errors (all equally deep) the first in item order is kept, since
Python `max` keeps the first maximal element.  Messages of branches other
than the per-item enum violation abbreviate the `jsonschema` wording; no
verified property depends on them. -/
def planSubschemaError : Json → Option String
  | .arr xs =>
    if xs.length < 1 then some "[] is too short"
    else if xs.length > 10 then some "is too long"
    else firstSomeMsg (xs.map itemError)
  | _ => some "is not of type \x27array\x27"

/-- Model of `jsonschema.validate(data, PLANNER_RESPONSE_SCHEMA)`: returns
`none` exactly when `data` conforms to the schema, otherwise the message of
the error raised (the one `best_match` selects).  `best_match` prefers
shallower errors, so the root-level violations — a missing `"plan"`
(`required`, which precedes `additionalProperties` in schema-keyword
iteration order and so wins the tie at equal depth) or an extra property
(`additionalProperties`) — are reported in preference to any error inside
the `"plan"` subschema. -/
def jsonschemaValidatePlanner : Json → Option String
  | .obj kvs =>
    (match kvs.lookup "plan" with
      | none => some "\x27plan\x27 is a required property"
      | some jp =>
        match kvs.find? (fun kv => kv.1 != "plan") with
        | some kv =>
          some ("Additional properties are not allowed (\x27" ++ kv.1 ++
            "\x27 was unexpected)")
        | none => planSubschemaError jp)
  | _ => some "is not of type \x27object\x27"

/-- The string carried by a JSON string value. -/
def jsonAsStr : Json → Option String
  | .str s => some s
  | _ => none

/-- `data.get("plan", [])` as a list of strings.  Non-string entries are
dropped; the `validate_planner_response` model only reads this after
`jsonschemaValidatePlanner` returned `none`, which guarantees every entry
is a string, so the read is exact where it is used. -/
def planOf : Json → List String
  | .obj kvs =>
    (match kvs.lookup "plan" with
      | some (.arr xs) => xs.filterMap jsonAsStr
      | _ => [])
  | _ => []

/-- `set(plan)` in first-occurrence order (Python set iteration order is
unspecified; no verified property depends on this order). -/
def dedupFirst (l : List String) : List String :=
  l.foldl (fun acc x => if acc.contains x then acc else acc ++ [x]) []

/-- `set(plan) - valid_tools`. -/
def setDiffTools (plan : List String) : List String :=
  (dedupFirst plan).filter (fun t => !(VALID_TOOLS.contains t))

/-- Python `repr` of a set of strings, in first-occurrence order. -/
def pySetRepr (items : List String) : String :=
  String.mk [lbraceChar] ++
    String.intercalate ", " (items.map (fun s => "\x27" ++ s ++ "\x27")) ++
    String.mk [rbraceChar]

/-- `SafeJSONParser.validate_planner_response`.  A `jsonschema`
`ValidationError` is re-raised as `SchemaValidationError("Schema validation
failed: ...")`; the two `SchemaValidationError`s raised inside the `try`
block ("Plan cannot be empty", "Invalid tools in plan: ...") are caught by
the trailing `except Exception` and re-raised wrapped as
`"Validation error: ..."`. -/
def validate_planner_response (data : Json) : Except String (List String) :=
  match jsonschemaValidatePlanner data with
  | some m => .error ("Schema validation failed: " ++ m)
  | none =>
    let plan := planOf data
    if plan.isEmpty then .error ("Validation error: " ++ "Plan cannot be empty")
    else
      let invalid := setDiffTools plan
      if invalid.isEmpty then .ok plan
      else
        .error ("Validation error: " ++ "Invalid tools in plan: " ++
          pySetRepr invalid)

/-- The message of the `SchemaValidationError` raised when `json.loads`
fails.  The Python message carries a position (`"Invalid JSON: Expecting
value: line 1 column 1 (char 0)"` and similar); the model abstracts the
position.  No verified property inspects this message. -/
def invalidJsonMsg : String := "Invalid JSON: Expecting value"

/-- `SafeJSONParser.safe_parse_json(s, "planner")`: `json.loads` followed by
planner schema validation.  `.error` is a raised `SchemaValidationError`;
`.ok plan` is the returned `\x7b"plan": plan\x7d` dict. -/
def safe_parse_json (s : String) : Except String (List String) :=
  match jsonLoads s with
  | none => .error invalidJsonMsg
  | some j => validate_planner_response j

/-- The state shared across the LangGraph nodes
(`src/orchestration/state.py`, `AgentState`).  The `ui` callback is not a
field here: event emission is modelled by the event traces the executor
models return. -/
structure AgentState where
  query : String
  plan : List String
  tool_output : List String
  response : String
  iteration : Nat
deriving Repr, BEq

/-- The keys of `TOOL_MAP` in `src/orchestration/nodes.py`. -/
def TOOL_MAP_keys : List String := VALID_TOOLS

/-- The membership test `tool_name in TOOL_MAP`. -/
def isRegistered (t : String) : Bool := TOOL_MAP_keys.contains t

/-- Python `tool_name.endswith("_async")` (expressed over the character
list so that concrete instances evaluate by kernel reduction). -/
def endsWithAsync (t : String) : Bool := List.isSuffixOf "_async".data t.data

/-- Invoking the registered tool `t` under behaviour `env` inside the
per-tool `try`/`except` boundary: an exception with message `m` becomes the
diagnostic string `"Error executing <t>: <m>"` (in the synchronous executor
this covers both the direct call and the sync-to-async bridging branches,
all of which produce this same diagnostic on failure). -/
def runTool (env : String → Except String String) (t : String) : String :=
  match env t with
  | .ok s => s
  | .error m => "Error executing " ++ t ++ ": " ++ m

/-- `tool_executor_node` (synchronous executor): walk the plan in order,
silently skipping identifiers that are not `TOOL_MAP` keys; for each
registered identifier emit `"tool_start:<id>"`, run the tool (converting an
exception into the diagnostic string), record the output, and emit
`"tool_done:<id>"` unconditionally.  Returns the `tool_output` list and the
trace of UI events. -/
def tool_executor_node (env : String → Except String String) :
    List String → List String × List String
  | [] => ([], [])
  | t :: rest =>
    if isRegistered t then
      (runTool env t :: (tool_executor_node env rest).1,
       ("tool_start:" ++ t) :: ("tool_done:" ++ t) ::
         (tool_executor_node env rest).2)
    else tool_executor_node env rest

/-- The registered synchronous subset of a plan, in plan order (the
classification loop of `tool_executor_node_async`). -/
def syncSubset (plan : List String) : List String :=
  plan.filter (fun t => isRegistered t && !(endsWithAsync t))

/-- The registered asynchronous subset of a plan, in plan order. -/
def asyncSubset (plan : List String) : List String :=
  plan.filter (fun t => isRegistered t && endsWithAsync t)

/-- The synchronous phase of `tool_executor_node_async`: run each tool in
order, emitting `"tool_start:<id>"` and `"tool_done:<id>"` around it. -/
def runToolsSeq (env : String → Except String String) :
    List String → List String × List String
  | [] => ([], [])
  | t :: rest =>
    (runTool env t :: (runToolsSeq env rest).1,
     ("tool_start:" ++ t) :: ("tool_done:" ++ t) :: (runToolsSeq env rest).2)

/-- The asynchronous phase of `tool_executor_node_async`: the creation loop
emits every `"tool_start:<id>"` first, then the await loop appends each
output and emits its `"tool_done:<id>"`, in creation (plan-subset)
order. -/
def runToolsAsyncPhase (env : String → Except String String)
    (tools : List String) : List String × List String :=
  (tools.map (runTool env),
   tools.map (fun t => "tool_start:" ++ t) ++
     tools.map (fun t => "tool_done:" ++ t))

/-- `tool_executor_node_async`: classify the registered plan entries into
the synchronous and asynchronous subsets, run the synchronous subset first,
then the asynchronous subset, and return the concatenated outputs (in
execution order) with the concatenated event trace. -/
def tool_executor_node_async (env : String → Except String String)
    (plan : List String) : List String × List String :=
  ((runToolsSeq env (syncSubset plan)).1 ++
     (runToolsAsyncPhase env (asyncSubset plan)).1,
   (runToolsSeq env (syncSubset plan)).2 ++
     (runToolsAsyncPhase env (asyncSubset plan)).2)

/-- One model-call-plus-decode attempt of `planner_node` under model
behaviour `gen` (attempt index ↦ raised exception or raw completion text):
`true` when the attempt fails, either because the Ollama call raises or
because `safe_parse_json` raises a `SchemaValidationError`. -/
def attemptFails (r : Except String String) : Bool :=
  match r with
  | .error _ => true
  | .ok raw =>
    match safe_parse_json raw with
    | .ok _ => false
    | .error _ => true

/-- The decoded plan of a successful attempt (`["vector_search"]` is never
read off a failing attempt by `planner_node`). -/
def attemptPlan (r : Except String String) : List String :=
  match r with
  | .error _ => ["vector_search"]
  | .ok raw =>
    match safe_parse_json raw with
    | .ok plan => plan
    | .error _ => ["vector_search"]

/-- The retry loop of `planner_node` over the remaining attempt indices:
each iteration re-invokes the model (`gen`), counts the invocation, and on
a decode or call failure either falls back to `["vector_search"]` (when it
was the last attempt) or continues.  The `[]` case is the unreachable
trailing fallback of the Python function. -/
def plannerAttempts (gen : Nat → Except String String) :
    List Nat → Nat → List String × Nat
  | [], calls => (["vector_search"], calls)
  | a :: rest, calls =>
    if attemptFails (gen a) then
      if rest.isEmpty then (["vector_search"], calls + 1)
      else plannerAttempts gen rest (calls + 1)
    else (attemptPlan (gen a), calls + 1)

/-- `planner_node` with `max_retries = 3`: returns the plan of the returned
`\x7b"plan": ...\x7d` dict together with the number of Ollama `generate`
invocations made. -/
def planner_node (gen : Nat → Except String String) : List String × Nat :=
  plannerAttempts gen [0, 1, 2] 0

/-- `validation_critique_node`: returns the state patch
`\x7b"iteration": state.iteration + 1\x7d`. -/
def validation_critique_node (s : AgentState) : Nat := s.iteration + 1

/-- LangGraph merging the patch returned by `validation_critique_node` into
the state: only `iteration` is replaced. -/
def applyValidation (s : AgentState) : AgentState :=
  { s with iteration := validation_critique_node s }

/-- `_edge_selector` in `src/orchestration/graph.py`. -/
def edge_selector (s : AgentState) : String :=
  if s.iteration > 2 then "finish" else "synth"

/-- Python exception values as seen around the tenacity `retry` wrapper:
either an ordinary exception with its message, or a
`tenacity.RetryError` wrapping the exception of the failed last attempt. -/
inductive PyExc where
  | exc (msg : String)
  | retryError (last : PyExc)
deriving Repr, BEq, DecidableEq

/-- The retrying loop of the tenacity wrapper produced by
`retry` in `src/utils/retry.py` (`stop_after_attempt(3)`, default
`reraise=False`, default retry-on-any-`Exception` predicate): the operation
is a call-counter-indexed behaviour; `budget` attempts remain; `n` is the
running call counter.  On exhaustion the last exception is wrapped in a
`RetryError` — it is not re-raised unchanged. -/
def tenacityRun (op : Nat → Except PyExc String × Nat) :
    Nat → Nat → Except PyExc String × Nat
  | 0, n => (.error (.retryError (.exc "")), n)
  | budget + 1, n =>
    match op n with
    | (.ok v, n2) => (.ok v, n2)
    | (.error e, n2) =>
      if budget = 0 then (.error (.retryError e), n2)
      else tenacityRun op budget n2

/-- A zero-argument Python operation with behaviour `beh` (invocation index
↦ result or raised exception message), as a call-counted operation. -/
def callOp (beh : Nat → Except String String) (n : Nat) :
    Except PyExc String × Nat :=
  (match beh n with
    | .ok v => .ok v
    | .error m => .error (.exc m), n + 1)

/-- `retry(op)()` starting at call counter `n`: result and final counter. -/
def retryWrapped (beh : Nat → Except String String) (n : Nat) :
    Except PyExc String × Nat :=
  tenacityRun (callOp beh) 3 n

/-- `retry(retry(op))()`: the outer tenacity layer treats the inner wrapped
operation as its operation; an inner `RetryError` is an `Exception`, so the
outer layer retries on it. -/
def retryNested (beh : Nat → Except String String) (n : Nat) :
    Except PyExc String × Nat :=
  tenacityRun (fun m => retryWrapped beh m) 3 n

/-- The JSON value `json.loads` recovers from the serialization of the
planner document with plan `P`. -/
def planDocJson (P : List String) : Json :=
  Json.obj [("plan", Json.arr (P.map Json.str))]

/-- Tool behaviour in which every tool returns its own name. -/
def envEcho : String → Except String String := fun t => .ok t

/-- Tool behaviour in which `graph_search` raises `boom` and every other
tool succeeds. -/
def envFail : String → Except String String :=
  fun t => if t = "graph_search" then .error "boom" else .ok (t ++ " result")

/-- A plan placing an asynchronous tool before a synchronous one. -/
def mixedPlan : List String := ["vector_search_async", "vector_search"]

/-- A plan containing an identifier that is not a `TOOL_MAP` key. -/
def skippedPlan : List String := ["vector_search", "bogus_tool"]

/-- A zero-argument operation that raises `ValueError("Always fails")` on
every invocation (the always-failing stub of the repository test suite). -/
def behAlwaysFails : Nat → Except String String :=
  fun _ => .error "Always fails"

/-- Distinct messages for each invocation of an always-failing operation. -/
def boomMsgs : Nat → String := fun n => "boom" ++ toString n

/-- An always-failing operation with invocation-indexed messages. -/
def behBoomN : Nat → Except String String := fun n => .error (boomMsgs n)

/-- A model behaviour whose completion never parses as JSON. -/
def genGarbage : Nat → Except String String := fun _ => .ok "garbage"

/-- A valid planner JSON object wrapped in a Markdown code fence. -/
def fencedCompletion : String :=
  "```json\n\x7b\"plan\": [\"vector_search\"]\x7d\n```"

theorem string_data_inj {a b : String} (h : a.data = b.data) : a = b :=
  String.ext h

theorem isRegistered_eq_true {t : String} (h : t ∈ TOOL_MAP_keys) :
    isRegistered t = true := by
  simp [isRegistered]
  exact h

theorem isRegistered_eq_false {t : String} (h : t ∉ TOOL_MAP_keys) :
    isRegistered t = false := by
  simp [isRegistered]
  exact h

theorem start_event_inj {a b : String}
    (h : "tool_start:" ++ a = "tool_start:" ++ b) : a = b := by
  have hd := congrArg String.data h
  simp [String.data_append] at hd
  exact string_data_inj hd

theorem done_event_inj {a b : String}
    (h : "tool_done:" ++ a = "tool_done:" ++ b) : a = b := by
  have hd := congrArg String.data h
  simp [String.data_append] at hd
  exact string_data_inj hd

theorem start_ne_done (a b : String) :
    "tool_start:" ++ a ≠ "tool_done:" ++ b := by
  intro h
  have hd := congrArg String.data h
  simp [String.data_append] at hd

/-- Claim C1: for every AgentState whose plan contains only identifiers
registered in TOOL_MAP, `tool_executor_node` returns a `tool_output` list
with exactly one string per plan entry, in plan order; a tool that raises
an exception contributes `"Error executing <id>: <message>"` at its
position, and dispatch of all subsequent plan entries still occurs. -/
theorem c1_sync_dispatch_complete (env : String → Except String String)
    (plan : List String) (h : ∀ t ∈ plan, t ∈ TOOL_MAP_keys) :
    (tool_executor_node env plan).1 = plan.map (runTool env) ∧
    ∀ t m, env t = .error m →
      runTool env t = "Error executing " ++ t ++ ": " ++ m := by
  constructor
  · induction plan with
    | nil => rfl
    | cons t rest ih =>
      have ht : isRegistered t = true :=
        isRegistered_eq_true (h t (List.mem_cons_self t rest))
      have ihr := ih (fun x hx => h x (List.mem_cons_of_mem _ hx))
      simp [tool_executor_node, ht, ihr]
  · intro t m hm
    simp [runTool, hm]

/-- Witness for C1 at a concrete plan and a behaviour whose second tool
raises. -/
theorem c1_sync_dispatch_complete_witness :
    (∀ t ∈ ["vector_search", "graph_search"], t ∈ TOOL_MAP_keys) ∧
    (tool_executor_node envFail ["vector_search", "graph_search"]).1 =
      ["vector_search result", "Error executing graph_search: boom"] := by
  refine ⟨by decide, ?_⟩
  have := (c1_sync_dispatch_complete envFail ["vector_search", "graph_search"]
    (by decide)).1
  rw [this]
  rfl

/-- Claim C5: the validation node increments `iteration` by exactly 1 and
changes no other field, and the conditional edge out of it selects
SYNTHESIZE exactly when the incremented iteration is at most 2; a pass
entering VALIDATE with `iteration = 3` is routed to `finish` without
synthesizing. -/
theorem c5_validation_increment_and_routing (s : AgentState) :
    (applyValidation s).iteration = s.iteration + 1 ∧
    (applyValidation s).query = s.query ∧
    (applyValidation s).plan = s.plan ∧
    (applyValidation s).tool_output = s.tool_output ∧
    (applyValidation s).response = s.response ∧
    (edge_selector (applyValidation s) = "synth" ↔ s.iteration + 1 ≤ 2) ∧
    edge_selector (applyValidation { s with iteration := 3 }) = "finish" := by
  refine ⟨rfl, rfl, rfl, rfl, rfl, ?_, rfl⟩
  by_cases hgt : s.iteration + 1 > 2
  · have hfin : edge_selector (applyValidation s) = "finish" := by
      simp [edge_selector, applyValidation, validation_critique_node, hgt]
    rw [hfin]
    constructor
    · intro hh
      exact absurd hh (by decide)
    · intro hh
      omega
  · have hsyn : edge_selector (applyValidation s) = "synth" := by
      simp [edge_selector, applyValidation, validation_critique_node, hgt]
    rw [hsyn]
    exact ⟨fun _ => by omega, fun _ => rfl⟩

/-- Claim C3 (code bug): the tenacity-backed `retry` wrapper, on an
operation failing all 3 attempts, raises `RetryError` wrapping the last
attempt — not the last exception unchanged, contradicting the claim and
the repository test `test_retry_max_retries_exceeded`, which expects the
original `ValueError`.  The underlying operation is invoked 3 times. -/
theorem c3_retry_raises_wrapper_not_last_error :
    retryWrapped behAlwaysFails 0 =
      (Except.error (PyExc.retryError (PyExc.exc "Always fails")), 3) ∧
    PyExc.retryError (PyExc.exc "Always fails") ≠ PyExc.exc "Always fails" :=
  ⟨rfl, by decide⟩

/-- Counterexample for C9: for an always-failing operation, the doubly
wrapped `retry(retry(op))()` invokes the underlying operation 9 times, not
at most 3. -/
theorem c9_counterexample :
    ¬((retryNested behBoomN 0).2 ≤ 3) ∧ (retryNested behBoomN 0).2 = 9 := by
  refine ⟨?_, rfl⟩
  intro hle
  rw [show (retryNested behBoomN 0).2 = 9 from rfl] at hle
  omega

/-- Claim C9 (amended): applying the retry wrapper to an already-wrapped
always-failing operation multiplies the attempt budget: the underlying
operation is invoked exactly 9 times (3 outer attempts, each re-running
the 3-attempt inner wrapper, since the inner `RetryError` is an
`Exception` the outer layer retries on), versus 3 for a single wrapping. -/
theorem c9_nested_retry_budget_multiplies (beh : Nat → Except String String)
    (msgs : Nat → String) (h : ∀ n, beh n = .error (msgs n)) :
    retryNested beh 0 =
      (Except.error (PyExc.retryError (PyExc.retryError
        (PyExc.exc (msgs 8)))), 9) ∧
    retryWrapped beh 0 =
      (Except.error (PyExc.retryError (PyExc.exc (msgs 2))), 3) := by
  have key : ∀ n, retryWrapped beh n =
      (Except.error (PyExc.retryError (PyExc.exc (msgs (n + 2)))), n + 3) := by
    intro n
    simp [retryWrapped, tenacityRun, callOp, h]
  constructor
  · have e0 := key 0
    have e3 := key 3
    have e6 := key 6
    simp [retryNested, tenacityRun, e0, e3, e6]
  · simpa using key 0

/-- Witness for C9 (amended) at a concrete always-failing behaviour. -/
theorem c9_nested_retry_budget_multiplies_witness :
    (∀ n, behBoomN n = .error (boomMsgs n)) ∧
    retryNested behBoomN 0 =
      (Except.error (PyExc.retryError (PyExc.retryError
        (PyExc.exc (boomMsgs 8)))), 9) := by
  refine ⟨fun n => rfl, ?_⟩
  exact (c9_nested_retry_budget_multiplies behBoomN boomMsgs
    (fun n => rfl)).1

/-- Counterexample for C2: on the plan `["vector_search_async",
"vector_search"]` (both registered), the async dispatcher returns the
synchronous tool output first, so the i-th output does not correspond to
the i-th plan identifier. -/
theorem c2_counterexample :
    (tool_executor_node_async envEcho mixedPlan).1 ≠
      mixedPlan.map (runTool envEcho) := by
  rw [show (tool_executor_node_async envEcho mixedPlan).1 =
      ["vector_search", "vector_search_async"] from rfl,
    show mixedPlan.map (runTool envEcho) =
      ["vector_search_async", "vector_search"] from rfl]
  decide

theorem runToolsSeq_fst (env : String → Except String String)
    (ts : List String) : (runToolsSeq env ts).1 = ts.map (runTool env) := by
  induction ts with
  | nil => rfl
  | cons t rest ih => simp [runToolsSeq, ih]

theorem subset_lengths (plan : List String) :
    (syncSubset plan).length + (asyncSubset plan).length =
      (plan.filter (fun t => isRegistered t)).length := by
  induction plan with
  | nil => rfl
  | cons t rest ih =>
    cases hc : isRegistered t with
    | false =>
      simp only [syncSubset, asyncSubset, List.filter_cons, hc,
        Bool.false_and, if_neg Bool.false_ne_true] at *
      exact ih
    | true =>
      cases ha : endsWithAsync t with
      | false =>
        simp [syncSubset, asyncSubset, List.filter_cons, hc, ha] at *
        omega
      | true =>
        simp [syncSubset, asyncSubset, List.filter_cons, hc, ha] at *
        omega

/-- Claim C2 (amended): the async dispatcher executes the registered
synchronous subset first, in plan order, then the registered asynchronous
subset, in plan order, and returns the outputs in that execution order —
synchronous outputs followed by asynchronous outputs — with one output per
registered plan entry; the list is not reassembled into original plan
order. -/
theorem c2_sync_phase_then_async_phase (env : String → Except String String)
    (plan : List String) :
    (tool_executor_node_async env plan).1 =
      (syncSubset plan).map (runTool env) ++
        (asyncSubset plan).map (runTool env) ∧
    (tool_executor_node_async env plan).1.length =
      (plan.filter (fun t => isRegistered t)).length := by
  have hfst : (tool_executor_node_async env plan).1 =
      (syncSubset plan).map (runTool env) ++
        (asyncSubset plan).map (runTool env) := by
    simp [tool_executor_node_async, runToolsSeq_fst, runToolsAsyncPhase]
  refine ⟨hfst, ?_⟩
  rw [hfst]
  simp [← subset_lengths]

/-- Claim C6: if every one of the 3 attempts of the model-call-plus-decode
step fails (the call raises, or the decode raises a schema validation
error), `planner_node` returns the fallback plan `["vector_search"]`
without raising, and the model was re-invoked on every attempt (3
`generate` calls in total). -/
theorem c6_planner_fallback_after_three_calls
    (gen : Nat → Except String String)
    (h : ∀ i, i < 3 → attemptFails (gen i) = true) :
    planner_node gen = (["vector_search"], 3) := by
  have h0 := h 0 (by omega)
  have h1 := h 1 (by omega)
  have h2 := h 2 (by omega)
  simp [planner_node, plannerAttempts, h0, h1, h2]

/-- Witness for C6 at a behaviour whose completions never parse. -/
theorem c6_planner_fallback_witness :
    (∀ i, i < 3 → attemptFails (genGarbage i) = true) ∧
    planner_node genGarbage = (["vector_search"], 3) := by
  refine ⟨fun i _ => rfl, ?_⟩
  exact c6_planner_fallback_after_three_calls genGarbage (fun i _ => rfl)

theorem mem_of_isRegistered {t : String} (h : isRegistered t = true) :
    t ∈ TOOL_MAP_keys := by
  simpa [isRegistered] using h

theorem sync_exec_length (env : String → Except String String)
    (plan : List String) :
    (tool_executor_node env plan).1.length =
      (plan.filter (fun t => isRegistered t)).length := by
  induction plan with
  | nil => rfl
  | cons t rest ih =>
    cases hc : isRegistered t with
    | false => simp [tool_executor_node, List.filter_cons, hc, ih]
    | true => simp [tool_executor_node, List.filter_cons, hc, ih]

theorem sync_exec_events (env : String → Except String String)
    (plan : List String) :
    ∀ e ∈ (tool_executor_node env plan).2, ∃ k, k ∈ TOOL_MAP_keys ∧
      (e = "tool_start:" ++ k ∨ e = "tool_done:" ++ k) := by
  induction plan with
  | nil =>
    intro e he
    simp [tool_executor_node] at he
  | cons t rest ih =>
    intro e he
    cases hc : isRegistered t with
    | false =>
      rw [show tool_executor_node env (t :: rest) =
        tool_executor_node env rest by simp [tool_executor_node, hc]] at he
      exact ih e he
    | true =>
      simp [tool_executor_node, hc] at he
      rcases he with rfl | rfl | hmem
      · exact ⟨t, mem_of_isRegistered hc, Or.inl rfl⟩
      · exact ⟨t, mem_of_isRegistered hc, Or.inr rfl⟩
      · exact ih e hmem

theorem runToolsSeq_events (env : String → Except String String)
    (ts : List String) :
    ∀ e ∈ (runToolsSeq env ts).2, ∃ k, k ∈ ts ∧
      (e = "tool_start:" ++ k ∨ e = "tool_done:" ++ k) := by
  induction ts with
  | nil =>
    intro e he
    simp [runToolsSeq] at he
  | cons t rest ih =>
    intro e he
    simp [runToolsSeq] at he
    rcases he with rfl | rfl | hmem
    · exact ⟨t, by simp, Or.inl rfl⟩
    · exact ⟨t, by simp, Or.inr rfl⟩
    · obtain ⟨k, hk, hf⟩ := ih e hmem
      exact ⟨k, by simp [hk], hf⟩

theorem async_exec_events (env : String → Except String String)
    (plan : List String) :
    ∀ e ∈ (tool_executor_node_async env plan).2, ∃ k, k ∈ TOOL_MAP_keys ∧
      (e = "tool_start:" ++ k ∨ e = "tool_done:" ++ k) := by
  intro e he
  simp only [tool_executor_node_async, List.mem_append] at he
  rcases he with hse | hae
  · obtain ⟨k, hk, hf⟩ := runToolsSeq_events env (syncSubset plan) e hse
    have hk' : k ∈ plan ∧ isRegistered k = true ∧ endsWithAsync k = false := by
      simpa [syncSubset, List.mem_filter] using hk
    exact ⟨k, mem_of_isRegistered hk'.2.1, hf⟩
  · simp only [runToolsAsyncPhase, List.mem_append, List.mem_map] at hae
    have hk2 : ∀ k, k ∈ asyncSubset plan → isRegistered k = true := by
      intro k hk
      have hk' : k ∈ plan ∧ isRegistered k = true ∧ endsWithAsync k = true := by
        simpa [asyncSubset, List.mem_filter] using hk
      exact hk'.2.1
    rcases hae with ⟨k, hk, rfl⟩ | ⟨k, hk, rfl⟩
    · exact ⟨k, mem_of_isRegistered (hk2 k hk), Or.inl rfl⟩
    · exact ⟨k, mem_of_isRegistered (hk2 k hk), Or.inr rfl⟩

theorem filter_registered_lt {t : String} {plan : List String}
    (hmem : t ∈ plan) (hp : isRegistered t = false) :
    (plan.filter (fun x => isRegistered x)).length < plan.length := by
  apply List.length_filter_lt_length_iff_exists.mpr
  exact ⟨t, hmem, by simp [hp]⟩

/-- Claim C10: a plan identifier that is not a `TOOL_MAP` key is silently
skipped by both dispatchers: no output entry, no `"tool_start:<id>"` or
`"tool_done:<id>"` event, and no exception; the returned `tool_output` is
strictly shorter than the plan. -/
theorem c10_unregistered_silently_skipped
    (env : String → Except String String) (plan : List String) (t : String)
    (hmem : t ∈ plan) (hreg : t ∉ TOOL_MAP_keys) :
    ((tool_executor_node env plan).1.length < plan.length ∧
      ("tool_start:" ++ t) ∉ (tool_executor_node env plan).2 ∧
      ("tool_done:" ++ t) ∉ (tool_executor_node env plan).2) ∧
    ((tool_executor_node_async env plan).1.length < plan.length ∧
      ("tool_start:" ++ t) ∉ (tool_executor_node_async env plan).2 ∧
      ("tool_done:" ++ t) ∉ (tool_executor_node_async env plan).2) := by
  have hfalse : isRegistered t = false := isRegistered_eq_false hreg
  have hlen : (plan.filter (fun x => isRegistered x)).length < plan.length :=
    filter_registered_lt hmem hfalse
  have habsent : ∀ evs : List String,
      (∀ e ∈ evs, ∃ k, k ∈ TOOL_MAP_keys ∧
        (e = "tool_start:" ++ k ∨ e = "tool_done:" ++ k)) →
      ("tool_start:" ++ t) ∉ evs ∧ ("tool_done:" ++ t) ∉ evs := by
    intro evs hchar
    constructor
    · intro hin
      obtain ⟨k, hk, hf⟩ := hchar _ hin
      rcases hf with heq | heq
      · exact hreg (start_event_inj heq ▸ hk)
      · exact start_ne_done t k heq
    · intro hin
      obtain ⟨k, hk, hf⟩ := hchar _ hin
      rcases hf with heq | heq
      · exact start_ne_done k t heq.symm
      · exact hreg (done_event_inj heq ▸ hk)
  refine ⟨⟨?_, habsent _ (sync_exec_events env plan)⟩,
    ⟨?_, habsent _ (async_exec_events env plan)⟩⟩
  · rw [sync_exec_length]
    exact hlen
  · rw [(c2_sync_phase_then_async_phase env plan).2]
    exact hlen

/-- Witness for C10 at a concrete plan holding an unregistered
identifier. -/
theorem c10_unregistered_silently_skipped_witness :
    ("bogus_tool" ∈ skippedPlan ∧ "bogus_tool" ∉ TOOL_MAP_keys) ∧
    (tool_executor_node envEcho skippedPlan).1.length < skippedPlan.length ∧
    ("tool_start:" ++ "bogus_tool") ∉
      (tool_executor_node_async envEcho skippedPlan).2 := by
  have hmain := c10_unregistered_silently_skipped envEcho skippedPlan
    "bogus_tool" (by decide) (by decide)
  exact ⟨⟨by decide, by decide⟩, hmain.1.1, hmain.2.2.1⟩

/-- Claim C4 (amended): neither `safe_parse_json` nor `planner_node` strips
Markdown code fences: every completion whose first non-whitespace
character is a backtick fails JSON parsing, so `safe_parse_json` raises a
`SchemaValidationError` (in `planner_node` the attempt counts as failed,
triggering retry and, on exhaustion, the fallback plan). -/
theorem c4_no_fence_stripping (s : String)
    (h : (skipWs s.data).head? = some backtickChar) :
    safe_parse_json s = .error invalidJsonMsg := by
  obtain ⟨tail, htail⟩ : ∃ tail, skipWs s.data = backtickChar :: tail := by
    cases hsw : skipWs s.data with
    | nil =>
      rw [hsw] at h
      simp at h
    | cons c cs =>
      rw [hsw] at h
      simp at h
      exact ⟨cs, by rw [h]⟩
  have hval : parseVal (s.length + 1) s.data = none := by
    simp only [parseVal, htail]
    rw [if_neg (by decide : ¬(backtickChar = quoteChar)),
      if_neg (by decide : ¬(backtickChar = '[')),
      if_neg (by decide : ¬(backtickChar = lbraceChar)),
      if_neg (by decide : ¬(backtickChar = 't')),
      if_neg (by decide : ¬(backtickChar = 'f')),
      if_neg (by decide : ¬(backtickChar = 'n')),
      if_neg (by decide :
        ¬((decide (backtickChar = '-') || backtickChar.isDigit) = true))]
  simp [safe_parse_json, jsonLoads, hval]

/-- Witness for C4 (amended) at the fenced completion. -/
theorem c4_no_fence_stripping_witness :
    (skipWs fencedCompletion.data).head? = some backtickChar ∧
    safe_parse_json fencedCompletion = .error invalidJsonMsg :=
  ⟨rfl, c4_no_fence_stripping fencedCompletion rfl⟩

/-- Counterexample for C4: on a valid planner JSON object wrapped in a
Markdown code fence the decoder raises instead of stripping the fence and
returning the contained plan. -/
theorem c4_counterexample :
    safe_parse_json fencedCompletion = .error invalidJsonMsg ∧
    safe_parse_json fencedCompletion ≠ .ok ["vector_search"] := by
  constructor
  · rfl
  · intro hcontra
    rw [show safe_parse_json fencedCompletion = .error invalidJsonMsg
      from rfl] at hcontra
    exact Except.noConfusion hcontra

theorem skipWs_not_ws {c : Char} (cs : List Char) (h : isJsonWs c = false) :
    skipWs (c :: cs) = c :: cs := by
  simp [skipWs, h]

theorem skipWs_ws {c : Char} (cs : List Char) (h : isJsonWs c = true) :
    skipWs (c :: cs) = skipWs cs := by
  simp [skipWs, h]

theorem parseStringBody_plain (l rest : List Char)
    (h : ∀ c ∈ l, c ≠ quoteChar ∧ c ≠ backslashChar) :
    parseStringBody (l ++ quoteChar :: rest) = some (l, rest) := by
  induction l with
  | nil =>
    cases rest with
    | nil => simp [parseStringBody]
    | cons r rs => simp [parseStringBody]
  | cons a as ih =>
    have ha := h a (List.mem_cons_self a as)
    have ihs := ih (fun c hc => h c (List.mem_cons_of_mem _ hc))
    cases hAs : as ++ quoteChar :: rest with
    | nil => simp at hAs
    | cons e cs2 =>
      have hsplit : (a :: as) ++ quoteChar :: rest = a :: e :: cs2 := by
        rw [List.cons_append, hAs]
      rw [hsplit]
      simp only [parseStringBody]
      rw [if_neg ha.1, if_neg ha.2, ← hAs, ihs]

theorem parseElems_ws_cons (f : Nat) {c : Char} (h : isJsonWs c = true)
    (X : List Char) : parseElems f (c :: X) = parseElems f X := by
  cases f with
  | zero => rfl
  | succ f2 =>
    simp only [parseElems]
    rw [skipWs_ws X h]

theorem parseVal_str (fuel : Nat) (x : String) (rest : List Char)
    (hx : ∀ c ∈ x.data, c ≠ quoteChar ∧ c ≠ backslashChar) :
    parseVal (fuel + 1) (quoteChar :: x.data ++ quoteChar :: rest) =
      some (Json.str x, rest) := by
  simp only [parseVal]
  rw [show skipWs (quoteChar :: x.data ++ quoteChar :: rest) =
    quoteChar :: (x.data ++ quoteChar :: rest) from
      skipWs_not_ws _ (by decide)]
  dsimp only
  rw [if_pos rfl, parseStringBody_plain x.data rest hx]

theorem parseElems_dumps (l : List String) (rest : List Char)
    (hl : l ≠ [])
    (hx : ∀ x ∈ l, ∀ c ∈ x.data, c ≠ quoteChar ∧ c ≠ backslashChar) :
    ∀ fuel, l.length + 1 ≤ fuel →
      parseElems fuel ((dumpsItems l).data ++ ']' :: rest) =
        some (l.map Json.str, rest) := by
  induction l with
  | nil => exact absurd rfl hl
  | cons x tl ih =>
    intro fuel hfuel
    have hxx := hx x (List.mem_cons_self x tl)
    cases fuel with
    | zero => omega
    | succ f =>
      cases tl with
      | nil =>
        have hdata : (dumpsItems [x]).data ++ ']' :: rest =
            quoteChar :: (x.data ++ quoteChar :: ']' :: rest) := by
          simp [dumpsItems, dumpsStr]
        rw [hdata]
        simp only [parseElems]
        rw [skipWs_not_ws _ (by decide)]
        dsimp only
        rw [if_neg (by decide : ¬(quoteChar = ']'))]
        cases f with
        | zero =>
          simp at hfuel
        | succ f2 =>
          rw [show quoteChar :: (x.data ++ quoteChar :: ']' :: rest) =
            quoteChar :: x.data ++ quoteChar :: ']' :: rest from by simp]
          rw [parseVal_str f2 x (']' :: rest) hxx]
          dsimp only
          rw [skipWs_not_ws _ (by decide)]
          dsimp only
          rw [if_neg (by decide : ¬(']' = ',')), if_pos rfl]
          simp
      | cons y tl2 =>
        have hdata : (dumpsItems (x :: y :: tl2)).data ++ ']' :: rest =
            quoteChar :: x.data ++ quoteChar :: ',' :: ' ' ::
              ((dumpsItems (y :: tl2)).data ++ ']' :: rest) := by
          simp [dumpsItems, dumpsStr, String.data_append]
        rw [hdata]
        simp only [parseElems]
        rw [show skipWs (quoteChar :: x.data ++ quoteChar :: ',' :: ' ' ::
            ((dumpsItems (y :: tl2)).data ++ ']' :: rest)) =
          quoteChar :: (x.data ++ quoteChar :: ',' :: ' ' ::
            ((dumpsItems (y :: tl2)).data ++ ']' :: rest)) from by
          rw [List.cons_append]
          exact skipWs_not_ws _ (by decide)]
        dsimp only
        rw [if_neg (by decide : ¬(quoteChar = ']'))]
        cases f with
        | zero =>
          simp at hfuel
        | succ f2 =>
          rw [show quoteChar :: (x.data ++ quoteChar :: ',' :: ' ' ::
            ((dumpsItems (y :: tl2)).data ++ ']' :: rest)) =
            quoteChar :: x.data ++ quoteChar :: ',' :: ' ' ::
              ((dumpsItems (y :: tl2)).data ++ ']' :: rest) from by simp]
          rw [parseVal_str f2 x _ hxx]
          dsimp only
          rw [skipWs_not_ws _ (by decide)]
          dsimp only
          rw [if_pos rfl]
          rw [parseElems_ws_cons (f2 + 1) (by decide) _]
          rw [ih (by simp)
            (fun z hz => hx z (List.mem_cons_of_mem _ hz)) (f2 + 1)
            (by simp at hfuel ⊢; omega)]
          simp

theorem parseMembers_planDoc (P : List String) (rest : List Char) (f : Nat)
    (hP : P ≠ [])
    (hx : ∀ x ∈ P, ∀ c ∈ x.data, c ≠ quoteChar ∧ c ≠ backslashChar)
    (hfuel : P.length + 3 ≤ f) :
    parseMembers f (quoteChar :: "plan".data ++ quoteChar :: ':' :: ' ' ::
        '[' :: ((dumpsItems P).data ++ ']' :: rbraceChar :: rest)) =
      some ([("plan", Json.arr (P.map Json.str))], rest) := by
  cases f with
  | zero =>
    have : 0 < P.length := List.length_pos.mpr hP
    omega
  | succ f2 =>
    simp only [parseMembers]
    rw [show skipWs (quoteChar :: "plan".data ++ quoteChar :: ':' :: ' ' ::
        '[' :: ((dumpsItems P).data ++ ']' :: rbraceChar :: rest)) =
      quoteChar :: ("plan".data ++ quoteChar :: ':' :: ' ' ::
        '[' :: ((dumpsItems P).data ++ ']' :: rbraceChar :: rest)) from by
      rw [List.cons_append]
      exact skipWs_not_ws _ (by decide)]
    dsimp only
    rw [if_neg (by decide : ¬(quoteChar = rbraceChar)), if_pos rfl]
    rw [parseStringBody_plain "plan".data _ (by decide)]
    dsimp only
    rw [skipWs_not_ws _ (by decide)]
    dsimp only
    rw [if_pos rfl]
    cases f2 with
    | zero =>
      have : 0 < P.length := List.length_pos.mpr hP
      omega
    | succ f3 =>
      rw [show parseVal (f3 + 1) (' ' :: '[' ::
          ((dumpsItems P).data ++ ']' :: rbraceChar :: rest)) =
        some (Json.arr (P.map Json.str), rbraceChar :: rest) from by
        simp only [parseVal]
        rw [skipWs_ws _ (by decide), skipWs_not_ws _ (by decide)]
        dsimp only
        rw [if_neg (by decide : ¬('[' = quoteChar)), if_pos rfl]
        rw [show (dumpsItems P).data ++ ']' :: rbraceChar :: rest =
          (dumpsItems P).data ++ ']' :: (rbraceChar :: rest) from rfl]
        rw [parseElems_dumps P (rbraceChar :: rest) hP hx f3 (by omega)]]
      dsimp only
      rw [skipWs_not_ws _ (by decide)]
      dsimp only
      rw [if_neg (by decide : ¬(rbraceChar = ',')), if_pos rfl]

theorem dumpsItems_length_ge (l : List String) :
    l.length ≤ (dumpsItems l).data.length := by
  induction l with
  | nil => simp [dumpsItems]
  | cons x tl ih =>
    cases tl with
    | nil => simp [dumpsItems, dumpsStr]
    | cons y tl2 =>
      rw [show dumpsItems (x :: y :: tl2) =
        dumpsStr x ++ ", " ++ dumpsItems (y :: tl2) from rfl]
      simp only [String.data_append, List.length_append, List.length_cons]
      simp [dumpsStr] at ih ⊢
      omega

theorem serialize_data (P : List String) :
    (serializePlannerDoc P).data =
      lbraceChar :: quoteChar :: "plan".data ++ quoteChar :: ':' :: ' ' ::
        '[' :: ((dumpsItems P).data ++ ']' :: rbraceChar :: []) := by
  simp [serializePlannerDoc, dumpsStr, String.data_append]

theorem jsonLoads_serialize (P : List String) (hP : P ≠ [])
    (hx : ∀ x ∈ P, ∀ c ∈ x.data, c ≠ quoteChar ∧ c ≠ backslashChar) :
    jsonLoads (serializePlannerDoc P) = some (planDocJson P) := by
  have hlen : P.length + 4 ≤ (serializePlannerDoc P).length + 1 := by
    have h1 : (serializePlannerDoc P).length =
        (serializePlannerDoc P).data.length := rfl
    have h2 := dumpsItems_length_ge P
    have h3 : ("plan".data).length = 4 := rfl
    rw [h1, serialize_data P]
    simp only [List.length_cons, List.length_append, h3]
    omega
  have hval : parseVal ((serializePlannerDoc P).length + 1)
      (serializePlannerDoc P).data = some (planDocJson P, []) := by
    obtain ⟨f2, hf2⟩ : ∃ f2, (serializePlannerDoc P).length + 1 = f2 + 1 :=
      ⟨(serializePlannerDoc P).length, rfl⟩
    rw [hf2, serialize_data P]
    simp only [parseVal]
    rw [show skipWs (lbraceChar :: quoteChar :: "plan".data ++ quoteChar ::
        ':' :: ' ' :: '[' :: ((dumpsItems P).data ++ ']' ::
          rbraceChar :: [])) =
      lbraceChar :: (quoteChar :: "plan".data ++ quoteChar ::
        ':' :: ' ' :: '[' :: ((dumpsItems P).data ++ ']' ::
          rbraceChar :: [])) from by
      rw [List.cons_append]
      exact skipWs_not_ws _ (by decide)]
    dsimp only
    rw [if_neg (by decide : ¬(lbraceChar = quoteChar)),
      if_neg (by decide : ¬(lbraceChar = '[')), if_pos rfl]
    rw [parseMembers_planDoc P [] f2 hP hx (by omega)]
    rfl
  rw [jsonLoads, hval]
  rfl

theorem firstSomeMsg_all_none (l : List (Option String))
    (h : ∀ o ∈ l, o = none) : firstSomeMsg l = none := by
  induction l with
  | nil => rfl
  | cons o rest ih =>
    have ho := h o (List.mem_cons_self o rest)
    subst ho
    exact ih (fun o2 ho2 => h o2 (List.mem_cons_of_mem _ ho2))

theorem filterMap_jsonAsStr_map_str (P : List String) :
    (P.map Json.str).filterMap jsonAsStr = P := by
  induction P with
  | nil => rfl
  | cons x tl ih => simp [List.filterMap_cons, jsonAsStr, ih]

theorem mem_foldl_dedup (l : List String) :
    ∀ acc x, x ∈ l.foldl
      (fun acc x => if acc.contains x then acc else acc ++ [x]) acc →
      x ∈ acc ∨ x ∈ l := by
  induction l with
  | nil =>
    intro acc x h
    exact Or.inl h
  | cons a tl ih =>
    intro acc x h
    have step := ih (if acc.contains a then acc else acc ++ [a]) x h
    rcases step with hacc | htl
    · cases hca : acc.contains a with
      | true =>
        rw [hca] at hacc
        simp at hacc
        exact Or.inl hacc
      | false =>
        rw [hca] at hacc
        simp at hacc
        rcases hacc with hin | rfl
        · exact Or.inl hin
        · exact Or.inr (List.mem_cons_self _ _)
    · exact Or.inr (List.mem_cons_of_mem _ htl)

theorem setDiffTools_nil (P : List String)
    (h3 : ∀ x ∈ P, x ∈ VALID_TOOLS) : setDiffTools P = [] := by
  rw [setDiffTools, List.filter_eq_nil_iff]
  intro a ha
  have haP : a ∈ P := by
    have := mem_foldl_dedup P [] a (by simpa [dedupFirst] using ha)
    simpa using this
  simp [h3 a haP]

theorem jsonschema_planDoc_none (P : List String) (h1 : P ≠ [])
    (h2 : P.length ≤ 10) (h3 : ∀ x ∈ P, x ∈ VALID_TOOLS) :
    jsonschemaValidatePlanner (planDocJson P) = none := by
  have hlk : ([("plan", Json.arr (P.map Json.str))].lookup "plan") =
      some (Json.arr (P.map Json.str)) := by simp [List.lookup]
  have hitems : firstSomeMsg ((P.map Json.str).map itemError) = none := by
    apply firstSomeMsg_all_none
    intro o ho
    simp only [List.map_map, List.mem_map] at ho
    obtain ⟨x, hxP, rfl⟩ := ho
    simp [itemError, h3 x hxP]
  have hpos : 0 < P.length := List.length_pos.mpr h1
  have hps : planSubschemaError (Json.arr (P.map Json.str)) = none := by
    simp only [planSubschemaError, List.length_map]
    rw [if_neg (by omega), if_neg (by omega)]
    exact hitems
  simp only [jsonschemaValidatePlanner, planDocJson]
  rw [hlk]
  dsimp only
  rw [show ([("plan", Json.arr (P.map Json.str))].find?
      (fun kv => kv.1 != "plan")) = none from by simp [List.find?]]
  exact hps

theorem validate_planDoc_ok (P : List String) (h1 : P ≠ [])
    (h2 : P.length ≤ 10) (h3 : ∀ x ∈ P, x ∈ VALID_TOOLS) :
    validate_planner_response (planDocJson P) = .ok P := by
  have hplan : planOf (planDocJson P) = P := by
    simp only [planOf, planDocJson]
    rw [show ([("plan", Json.arr (P.map Json.str))].lookup "plan") =
      some (Json.arr (P.map Json.str)) from by simp [List.lookup]]
    exact filterMap_jsonAsStr_map_str P
  have hne : P.isEmpty = false := by
    cases P with
    | nil => exact absurd rfl h1
    | cons a l => rfl
  simp only [validate_planner_response]
  rw [jsonschema_planDoc_none P h1 h2 h3]
  dsimp only
  rw [hplan, hne]
  simp [setDiffTools_nil P h3]

/-- Claim C7: for every plan of 1 to 10 identifiers drawn from the tool
enumeration, decoding the JSON serialization of `\x7b"plan": P\x7d`
returns exactly the plan `P` (decode after serialize is the identity). -/
theorem c7_decode_serialize_roundtrip (P : List String) (h1 : P ≠ [])
    (h2 : P.length ≤ 10) (h3 : ∀ x ∈ P, x ∈ VALID_TOOLS) :
    safe_parse_json (serializePlannerDoc P) = .ok P := by
  have hx : ∀ x ∈ P, ∀ c ∈ x.data, c ≠ quoteChar ∧ c ≠ backslashChar := by
    intro x hxP
    have hm := h3 x hxP
    simp [VALID_TOOLS] at hm
    rcases hm with rfl | rfl | rfl | rfl <;> decide
  simp only [safe_parse_json]
  rw [jsonLoads_serialize P h1 hx]
  dsimp only
  exact validate_planDoc_ok P h1 h2 h3

/-- Witness for C7 at a concrete two-tool plan. -/
theorem c7_decode_serialize_roundtrip_witness :
    ((["vector_search", "graph_search_async"] : List String) ≠ [] ∧
      (["vector_search", "graph_search_async"] : List String).length ≤ 10 ∧
      ∀ x ∈ (["vector_search", "graph_search_async"] : List String),
        x ∈ VALID_TOOLS) ∧
    safe_parse_json
        (serializePlannerDoc ["vector_search", "graph_search_async"]) =
      .ok ["vector_search", "graph_search_async"] :=
  ⟨⟨by decide, by decide, by decide⟩,
   c7_decode_serialize_roundtrip ["vector_search", "graph_search_async"]
     (by decide) (by decide) (by decide)⟩

end CogStack
